import Mathlib

/-!
Verification of the progress-bridge subsystem of the animutools repository
(`src/animutools/progress.py`): the TCP line-protocol listener
(`ProgressServer._handle_client`, `ProgressServer._accept_connections`),
the progress-bar driver (the `update_progress` callback inside
`run_ffmpeg_with_progress`), and the subprocess coordinator
(`run_ffmpeg_with_progress` itself).

Bytes are modelled as natural numbers; `bytes.decode(errors='ignore')` is
modelled as UTF-8 decoding in which every malformed subpart (invalid lead
byte, bare or missing continuation byte, overlong form, surrogate,
out-of-range codepoint) is dropped and decoding resumes at the offending
byte — CPython's behavior for `errors='ignore'`.  Python strings are
`List Char`.  Python floats are modelled as rationals: the finite-result
ASCII grammar of `float(str)` (whitespace, sign, digits with underscores,
fractional part, exponent) is modelled exactly by `parsePyFloat`, and the
`inf`/`infinity`/`nan` literals — accepted by `float()` but with no
rational value — are recognized by `isPyNonFinite`; theorems that
quantify over adversarial values restrict to ASCII strings that are not
such literals, the domain on which the modelled parse agrees with
`float()`.
-/

namespace Animutools

/-- A Python string, modelled as a list of characters. -/
abbrev PyStr := List Char

/-- Shorthand turning a Lean string literal into the `PyStr` model. -/
def strS (s : String) : PyStr := s.toList

/-- The ASCII bytes of a string, for building protocol byte streams. -/
def asciiBytes (s : String) : List Nat := s.toList.map Char.toNat

/-- Whitespace test of Python `str.strip()` and `str.split()`: the Unicode
whitespace set of `str` methods. -/
def isPySpace (c : Char) : Bool :=
  decide ((9 ≤ c.toNat ∧ c.toNat ≤ 13) ∨ (28 ≤ c.toNat ∧ c.toNat ≤ 31) ∨
    c.toNat = 32 ∨ c.toNat = 133 ∨ c.toNat = 160 ∨ c.toNat = 5760 ∨
    (8192 ≤ c.toNat ∧ c.toNat ≤ 8202) ∨ c.toNat = 8232 ∨ c.toNat = 8233 ∨
    c.toNat = 8239 ∨ c.toNat = 8287 ∨ c.toNat = 12288)

/-- Whitespace stripped by `float(str)` itself: the `str` whitespace set
except U+001C-U+001F, which `float()` does not strip (it rejects strings
carrying them). -/
def isFloatSpace (c : Char) : Bool :=
  isPySpace c && decide (¬(28 ≤ c.toNat ∧ c.toNat ≤ 31))

/-- Python `str.strip()`: remove leading and trailing whitespace. -/
def stripChars (cs : PyStr) : PyStr :=
  ((cs.dropWhile isPySpace).reverse.dropWhile isPySpace).reverse

/-- Valid UTF-8 continuation byte (0x80-0xBF). -/
def isCont (b : Nat) : Bool := decide (128 ≤ b ∧ b ≤ 191)

/-- Valid second byte for the three-byte UTF-8 lead `b`: plain
continuation range, narrowed for lead 0xE0 (no overlong forms) and lead
0xED (no surrogates). -/
def isCont2 (b b2 : Nat) : Bool :=
  if b = 224 then decide (160 ≤ b2 ∧ b2 ≤ 191)
  else if b = 237 then decide (128 ≤ b2 ∧ b2 ≤ 159)
  else isCont b2

/-- Valid second byte for the four-byte UTF-8 lead `b`: plain continuation
range, narrowed for lead 0xF0 (no overlong forms) and lead 0xF4 (nothing
above U+10FFFF). -/
def isCont3 (b b2 : Nat) : Bool :=
  if b = 240 then decide (144 ≤ b2 ∧ b2 ≤ 191)
  else if b = 244 then decide (128 ≤ b2 ∧ b2 ≤ 143)
  else isCont b2

/-- One step of UTF-8 decoding at lead byte `b` with following bytes
`bs`: the decoded character, if the sequence starting at `b` is
well-formed, and how many bytes of `bs` are consumed in addition to `b`
(the valid continuation bytes of a malformed subpart are consumed along
with it, decoding resuming at the offending byte — CPython's
maximal-subpart policy for `errors='ignore'`). -/
def utf8Step (b : Nat) (bs : List Nat) : Option Char × Nat :=
  if b < 128 then (some (Char.ofNat b), 0)
  else if 194 ≤ b ∧ b ≤ 223 then
    match bs with
    | b2 :: _ =>
      if isCont b2 then (some (Char.ofNat ((b - 192) * 64 + (b2 - 128))), 1)
      else (none, 0)
    | [] => (none, 0)
  else if 224 ≤ b ∧ b ≤ 239 then
    match bs with
    | b2 :: b3 :: _ =>
      if isCont2 b b2 then
        if isCont b3 then
          (some (Char.ofNat ((b - 224) * 4096 + (b2 - 128) * 64 + (b3 - 128))), 2)
        else (none, 1)
      else (none, 0)
    | [b2] => if isCont2 b b2 then (none, 1) else (none, 0)
    | [] => (none, 0)
  else if 240 ≤ b ∧ b ≤ 244 then
    match bs with
    | b2 :: b3 :: b4 :: _ =>
      if isCont3 b b2 then
        if isCont b3 then
          if isCont b4 then
            (some (Char.ofNat ((b - 240) * 262144 + (b2 - 128) * 4096 +
              (b3 - 128) * 64 + (b4 - 128))), 3)
          else (none, 2)
        else (none, 1)
      else (none, 0)
    | [b2, b3] =>
      if isCont3 b b2 then
        if isCont b3 then (none, 2) else (none, 1)
      else (none, 0)
    | [b2] => if isCont3 b b2 then (none, 1) else (none, 0)
    | [] => (none, 0)
  else (none, 0)

/-- Decoding loop of `bytes.decode(errors='ignore')`: repeat `utf8Step`,
emitting the decoded characters and skipping malformed subparts.  The
fuel argument — instantiated with the buffer length, which bounds the
number of steps since every step consumes at least one byte — makes the
function structurally recursive. -/
def decodeBytesFuel : Nat → List Nat → PyStr
  | _, [] => []
  | 0, _ => []
  | fuel + 1, b :: bs =>
    let st := utf8Step b bs
    (match st.1 with
     | some ch => [ch]
     | none => []) ++ decodeBytesFuel fuel (List.drop st.2 bs)

/-- Model of `bytes.decode(errors='ignore')`: UTF-8 decoding where every
malformed subpart is dropped and decoding resumes at the offending byte;
invalid lead bytes (0x80-0xC1, 0xF5-0xFF) and bare continuation bytes are
skipped, and a truncated but otherwise valid sequence at end of input is
dropped. -/
def decodeBytes (bs : List Nat) : PyStr := decodeBytesFuel bs.length bs

/-- Python `line.split('=', 1)`: split once on the first `'='`; the second
component is `none` when no `'='` occurs (a bare-key line). -/
def splitOnceEq (cs : PyStr) : PyStr × Option PyStr :=
  if '=' ∈ cs then (cs.takeWhile (· ≠ '='), some ((cs.dropWhile (· ≠ '=')).tail))
  else (cs, none)

/-- One parsed protocol event as delivered to the caller's handler:
`(key, value-or-none)`. -/
abbrev Event := PyStr × Option PyStr

/-- Per-line processing of `ProgressServer._handle_client`
(progress.py lines 91-100): decode the line bytes ignoring undecodable
bytes, strip it, skip blank lines, split once on the first `'='`, strip key
and value, and invoke the handler only when the key is non-empty. -/
def parseLine (bs : List Nat) : Option Event :=
  let line := stripChars (decodeBytes bs)
  if line = [] then none
  else
    let parts := splitOnceEq line
    let key := stripChars parts.1
    let value := parts.2.map stripChars
    if key = [] then none else some (key, value)

/-- Newline, `b'\n'`, as a byte. -/
def NL : Nat := 10

lemma length_dropWhile_le {α : Type} (p : α → Bool) (l : List α) :
    (l.dropWhile p).length ≤ l.length := by
  induction l with
  | nil => simp
  | cons a t ih =>
    by_cases h : p a
    · simpa [List.dropWhile, h] using Nat.le_succ_of_le ih
    · simp [List.dropWhile, h]

lemma tail_dropWhile_length_lt {α : Type} (p : α → Bool) (l : List α) (a : α)
    (ha : a ∈ l) (hpa : p a = false) :
    ((l.dropWhile p).tail).length < l.length := by
  have hne : l.dropWhile p ≠ [] := by
    intro hnil
    have := List.dropWhile_eq_nil_iff.mp hnil a ha
    simp [hpa] at this
  calc ((l.dropWhile p).tail).length < (l.dropWhile p).length := by
        cases hd : l.dropWhile p with
        | nil => exact absurd hd hne
        | cons b t => simp
    _ ≤ l.length := length_dropWhile_le p l

/-- The `while b'\n' in buffer` loop of `_handle_client` (lines 89-90):
repeatedly split the buffer on the first newline, returning the complete
line byte-strings in order together with the final (newline-free)
remainder. -/
def drainLines (buf : List Nat) : List (List Nat) × List Nat :=
  if h : NL ∈ buf then
    have hlen : ((buf.dropWhile (· ≠ NL)).tail).length < buf.length :=
      tail_dropWhile_length_lt _ buf NL h (by simp)
    let rest := (buf.dropWhile (· ≠ NL)).tail
    let out := drainLines rest
    (buf.takeWhile (· ≠ NL) :: out.1, out.2)
  else ([], buf)
termination_by buf.length
decreasing_by simpa using hlen

/-- One pass of the read loop of `_handle_client` (lines 80-106), modelled
over the successive chunks returned by `recv`: append the chunk to the
buffer, drain all complete lines, emit the parsed events, and continue with
the remainder.  An empty chunk models `recv` returning `b''` (connection
closed): the loop breaks and the remaining buffer is discarded. -/
def handleChunks (buf : List Nat) : List (List Nat) → List Event
  | [] => []
  | c :: cs =>
    if c = [] then []
    else
      let out := drainLines (buf ++ c)
      out.1.filterMap parseLine ++ handleChunks out.2 cs

/-- The full event stream `_handle_client` delivers to the handler for one
connection whose `recv` calls return `chunks` in order: the synthetic
`('start', 'connected')` event (line 78) followed by the parsed lines. -/
def handleClientEvents (chunks : List (List Nat)) : List Event :=
  (strS "start", some (strS "connected")) :: handleChunks [] chunks

/-! ### Parsing of `float(str)` -/

/-- Digits of a decimal literal folded into a natural number. -/
def digitsToNat (cs : PyStr) : Nat :=
  cs.foldl (fun n c => 10 * n + (c.toNat - 48)) 0

/-- Whitespace stripping performed by `float(str)` itself, over the
`isFloatSpace` set. -/
def floatStrip (cs : PyStr) : PyStr :=
  ((cs.dropWhile isFloatSpace).reverse.dropWhile isFloatSpace).reverse

/-- Run of decimal digits with optional single underscores between digits
(PEP 515, accepted by `float()`): returns the digit characters with the
underscores removed together with the remaining input, stopping before
anything that is not a digit or an underscore sandwiched between digits;
`digitRunAfter` is the state in which a digit has just been consumed, so
an underscore followed by a digit may be consumed next. -/
def digitRunAfter : PyStr → PyStr × PyStr
  | [] => ([], [])
  | c :: rest =>
    if c.isDigit then
      let out := digitRunAfter rest
      (c :: out.1, out.2)
    else if c = '_' then
      match rest with
      | d :: rest2 =>
        if d.isDigit then
          let out := digitRunAfter rest2
          (d :: out.1, out.2)
        else ([], c :: rest)
      | [] => ([], [c])
    else ([], c :: rest)

/-- Entry point of the digit-run scanner: the run must begin with a digit
(a leading underscore is not consumed). -/
def digitRun : PyStr → PyStr × PyStr
  | [] => ([], [])
  | c :: rest =>
    if c.isDigit then
      let out := digitRunAfter rest
      (c :: out.1, out.2)
    else ([], c :: rest)

/-- Digits of an exponent: a digit run (underscores allowed) that must
consume the entire remaining input. -/
def expDigits (cs : PyStr) : Option Nat :=
  let out := digitRun cs
  if out.1.isEmpty then none
  else if out.2.isEmpty then some (digitsToNat out.1) else none

/-- Scale factor contributed by the optional exponent suffix: `some 1`
for no suffix, `10^n` or `10^(-n)` for a well-formed `e`/`E` exponent,
`none` for anything else. -/
def expScale : PyStr → Option ℚ
  | [] => some 1
  | c :: rest =>
    if c == 'e' || c == 'E' then
      match rest with
      | '-' :: r2 => (expDigits r2).map fun n => 1 / (10 : ℚ) ^ n
      | '+' :: r2 => (expDigits r2).map fun n => (10 : ℚ) ^ n
      | r2 => (expDigits r2).map fun n => (10 : ℚ) ^ n
    else none

/-- Unsigned finite-value grammar of `float(str)`: decimal digits
(underscores allowed) with an optional fractional part and an optional
exponent, at least one digit in the mantissa.  The result is the exact
rational value of the literal; binary64 rounding, and overflow of huge
exponents to infinity, are not modelled (both preserve the sign and the
clamp below the target duration that the theorems rely on). -/
def parseFinite (cs : PyStr) : Option ℚ :=
  let intOut := digitRun cs
  let mant : Option (ℚ × PyStr) :=
    match intOut.2 with
    | '.' :: r2 =>
      let fracOut := digitRun r2
      if intOut.1.isEmpty && fracOut.1.isEmpty then none
      else
        some ((digitsToNat intOut.1 : ℚ) +
          (digitsToNat fracOut.1 : ℚ) / (10 : ℚ) ^ fracOut.1.length, fracOut.2)
    | _ =>
      if intOut.1.isEmpty then none
      else some ((digitsToNat intOut.1 : ℚ), intOut.2)
  match mant with
  | none => none
  | some (m, r) =>
    match r with
    | [] => some m
    | _ =>
      match expScale r with
      | none => none
      | some sc => some (m * sc)

/-- Detector for the non-finite literals `float()` accepts: optional sign,
then `inf`, `infinity` or `nan`, case-insensitively, after stripping the
`float()` whitespace.  Their values (signed infinity, NaN) have no
rational counterpart, so `parsePyFloat` does not cover them; theorems
over adversarial values exclude them by hypothesis. -/
def isPyNonFinite (s : PyStr) : Bool :=
  let cs := floatStrip s
  let body :=
    match cs with
    | '-' :: r => r
    | '+' :: r => r
    | r => r
  let low := body.map Char.toLower
  low == strS "inf" || low == strS "infinity" || low == strS "nan"

/-- Model of `float(value)` as used by `update_progress` (line 196), for
values with a finite result: `float()` whitespace, an optional sign, then
the finite grammar of `parseFinite`.  `none` covers both the strings that
`float()` rejects with `ValueError` — which the source catches, ignoring
the event — and the non-finite literals of `isPyNonFinite`.  The grammar
is exact on ASCII; the acceptance by `float()` of non-ASCII decimal
digits is outside the model, and theorems over adversarial values
restrict to ASCII values accordingly. -/
def parsePyFloat (s : PyStr) : Option ℚ :=
  match floatStrip s with
  | '-' :: rest => (parseFinite rest).map fun q => -q
  | '+' :: rest => parseFinite rest
  | cs => parseFinite cs

/-! ### The progress Driver -/

/-- The Driver's session state for one encode: the rich `Progress` task
created by `progress.add_task(description, total=duration, start=False)`
(line 181) together with the `connected` flag (line 184).  `completed` is
the task's absolute position, initially 0. -/
structure DriverState where
  connected : Bool
  started : Bool
  completed : ℚ
deriving Repr, DecidableEq

/-- The state right after `add_task(..., start=False)`: not connected, task
not started, position 0. -/
def initState : DriverState := ⟨false, false, 0⟩

/-- The `update_progress` callback of `run_ffmpeg_with_progress`
(progress.py lines 187-203), as a state transition on one event:
`('start','connected')` starts the task; `('out_time_ms', v)` parses `v`
as a float, converts microseconds to seconds and sets the absolute
position to `min(time_sec, duration)`, ignoring unparseable values
(`ValueError`/`TypeError`/`OverflowError` caught); `('progress','end')`
sets the position to `duration`; every other event is ignored. -/
def update_progress (duration : ℚ) (s : DriverState) (ev : Event) : DriverState :=
  if ev.1 = strS "start" ∧ ev.2 = some (strS "connected") then
    { s with connected := true, started := true }
  else if ev.1 = strS "out_time_ms" then
    match ev.2 with
    | none => s
    | some v =>
      match parsePyFloat v with
      | none => s
      | some q => { s with completed := min (q / 1000000) duration }
  else if ev.1 = strS "progress" ∧ ev.2 = some (strS "end") then
    { s with completed := duration }
  else s

/-- Run the Driver over a whole event list. -/
def driverRun (duration : ℚ) (s : DriverState) (evs : List Event) : DriverState :=
  evs.foldl (update_progress duration) s

/-- The reported position after each event: the trajectory of
`task.completed` as the Driver consumes the event list. -/
def positionsAfter (duration : ℚ) (s : DriverState) : List Event → List ℚ
  | [] => []
  | e :: evs =>
    let s2 := update_progress duration s e
    s2.completed :: positionsAfter duration s2 evs

/-! ### The accept loop of `ProgressServer` -/

/-- One incoming connection as seen by the accept loop of
`ProgressServer._accept_connections` (lines 46-62): whether the previous
client thread is still alive at accept time (the
`self.client_thread.is_alive()` check, line 52 — the scheduler fact is
abstracted as a boolean supplied with the arrival), and the chunks the
connection's socket would deliver if serviced. -/
structure Arrival where
  prevHandlerAlive : Bool
  chunks : List (List Nat)

/-- Disposition of one accepted socket: rejected while busy (warning
logged, socket closed after `recvCalls` reads — the busy branch at lines
53-55 closes the socket without ever calling `recv` on it), or serviced by
a fresh `_handle_client` thread delivering `events`. -/
inductive ConnOutcome where
  | rejectedBusy (warned : Bool) (recvCalls : Nat)
  | serviced (events : List Event)
deriving Repr, DecidableEq

/-- The body of the accept loop for one accepted connection
(progress.py lines 48-62): if the previous client thread is alive, log a
warning and close the new socket immediately (no reads); otherwise hand
the socket to `_handle_client`. -/
def acceptConnection (a : Arrival) : ConnOutcome :=
  if a.prevHandlerAlive then .rejectedBusy true 0
  else .serviced (handleClientEvents a.chunks)

/-- Model of `_accept_connections` over a sequence of arrivals (timeout ticks,
which just re-check `self.running`, are invisible here): each arrival is
dispatched in order by the single accept thread. -/
def acceptLoop (arrivals : List Arrival) : List ConnOutcome :=
  arrivals.map acceptConnection

/-! ### The subprocess Coordinator `run_ffmpeg_with_progress` -/

/-- Abstract behavior of the external world for one invocation of
`run_ffmpeg_with_progress`: the exit code of the instrumented encoder
subprocess, whether the user interrupts during the monitored wait
(`KeyboardInterrupt`), and whether a plain un-instrumented
`ffmpeg_stream.run()` would raise `ffmpeg.Error`. -/
structure ExecEnv where
  returncode : Int
  interrupted : Bool
  plainRunFails : Bool
deriving Repr, DecidableEq

/-- How one invocation of `run_ffmpeg_with_progress` resolves for the
caller. -/
inductive RunOutcome where
  /-- the call returns normally -/
  | success
  /-- the `KeyboardInterrupt` propagates to the caller (lines 321-323) -/
  | interrupted
  /-- a `RuntimeError` carrying the encoder's exit code reaches the caller -/
  | failedWithCode (code : Int)
  /-- an `ffmpeg.Error` from an un-instrumented `ffmpeg_stream.run()` reaches
  the caller -/
  | fallbackError
deriving Repr, DecidableEq

/-- Observable trace of one invocation of `run_ffmpeg_with_progress`:
the `animutools` logger level after the call, the level in effect while
the encoder runs, the number of times an encoder subprocess is launched,
and the outcome. -/
structure RunTrace where
  finalLevel : Nat
  levelDuringEncode : Nat
  launches : Nat
  outcome : RunOutcome
deriving Repr, DecidableEq

/-- Numeric value of `logging.INFO`. -/
def INFO_LEVEL : Nat := 20

/-- The control flow of `run_ffmpeg_with_progress` (progress.py lines
143-336), as a function of the target duration, the abstract environment
and the `animutools` logger level at entry.

* `duration ≤ 0` (lines 154-158): run the subprocess plainly, once, with
  no logger-level mutation; errors of that run propagate.
* otherwise (lines 168-336): save `previous_level`, raise the level to
  `INFO` when at or below `INFO` (lines 169-172); run the instrumented
  subprocess once. Exit code 0 → success (lines 302-312).
  `KeyboardInterrupt` → re-raised (lines 321-323). Nonzero exit code →
  `RuntimeError` raised (line 315), re-raised by the inner handler
  (lines 317-319), then caught by the outer `except Exception`
  (lines 324-329) which, since `ffmpeg_success` is false, launches the
  encoder a second time via a plain `ffmpeg_stream.run()`; the original
  exit code is not re-raised. The `finally` block (lines 330-336) restores
  the saved logger level on every path. -/
def run_ffmpeg_with_progress (duration : ℚ) (env : ExecEnv) (level : Nat) : RunTrace :=
  if duration ≤ 0 then
    { finalLevel := level, levelDuringEncode := level, launches := 1,
      outcome := if env.plainRunFails then .fallbackError else .success }
  else
    let previous := level
    let duringLevel := if level ≤ INFO_LEVEL then INFO_LEVEL else level
    let body : Nat × RunOutcome :=
      if env.interrupted then (1, .interrupted)
      else if env.returncode = 0 then (1, .success)
      else if env.plainRunFails then (2, .fallbackError)
      else (2, .success)
    { finalLevel := previous, levelDuringEncode := duringLevel,
      launches := body.1, outcome := body.2 }

/-! ## Helper lemmas about `update_progress` -/

lemma update_start (D : ℚ) (s : DriverState) :
    update_progress D s (strS "start", some (strS "connected")) =
      { s with connected := true, started := true } := by
  simp [update_progress]

lemma update_out_time_some (D : ℚ) (s : DriverState) (v : PyStr) (q : ℚ)
    (h : parsePyFloat v = some q) :
    update_progress D s (strS "out_time_ms", some v) =
      { s with completed := min (q / 1000000) D } := by
  simp only [update_progress]
  rw [if_neg (by rintro ⟨hk, -⟩; revert hk; decide), if_pos (by decide)]
  simp [h]

lemma update_out_time_noparse (D : ℚ) (s : DriverState) (v : PyStr)
    (h : parsePyFloat v = none) :
    update_progress D s (strS "out_time_ms", some v) = s := by
  simp only [update_progress]
  rw [if_neg (by rintro ⟨hk, -⟩; revert hk; decide), if_pos (by decide)]
  simp [h]

lemma update_out_time_none (D : ℚ) (s : DriverState) :
    update_progress D s (strS "out_time_ms", none) = s := by
  simp only [update_progress]
  rw [if_neg (by rintro ⟨hk, -⟩; revert hk; decide), if_pos (by decide)]

lemma update_end (D : ℚ) (s : DriverState) :
    update_progress D s (strS "progress", some (strS "end")) =
      { s with completed := D } := by
  simp only [update_progress]
  rw [if_neg (by rintro ⟨hk, -⟩; revert hk; decide),
      if_neg (by decide), if_pos (by decide)]

lemma update_other (D : ℚ) (s : DriverState) (ev : Event)
    (h1 : ¬(ev.1 = strS "start" ∧ ev.2 = some (strS "connected")))
    (h2 : ev.1 ≠ strS "out_time_ms")
    (h3 : ¬(ev.1 = strS "progress" ∧ ev.2 = some (strS "end"))) :
    update_progress D s ev = s := by
  simp [update_progress, h1, h2, h3]

lemma update_completed_cases (D : ℚ) (s : DriverState) (ev : Event) :
    (update_progress D s ev).completed = s.completed ∨
    (update_progress D s ev).completed = D ∨
    ∃ v q, ev = (strS "out_time_ms", some v) ∧ parsePyFloat v = some q ∧
      (update_progress D s ev).completed = min (q / 1000000) D := by
  rcases ev with ⟨k, v⟩
  unfold update_progress
  split_ifs with h1 h2 h3
  · exact Or.inl rfl
  · cases v with
    | none => exact Or.inl rfl
    | some vs =>
      cases hp : parsePyFloat vs with
      | none => exact Or.inl (by simp [hp])
      | some q =>
        exact Or.inr (Or.inr ⟨vs, q, by simp_all, hp, by simp [hp]⟩)
  · exact Or.inr (Or.inl rfl)
  · exact Or.inl rfl

lemma step_bounds (D : ℚ) (hD : 0 ≤ D) (s : DriverState) (ev : Event)
    (hnn : ∀ v q, ev = (strS "out_time_ms", some v) → parsePyFloat v = some q → 0 ≤ q)
    (h0 : 0 ≤ s.completed) (h1 : s.completed ≤ D) :
    0 ≤ (update_progress D s ev).completed ∧ (update_progress D s ev).completed ≤ D := by
  rcases update_completed_cases D s ev with h | h | ⟨v, q, hev, hp, h⟩
  · rw [h]; exact ⟨h0, h1⟩
  · rw [h]; exact ⟨hD, le_refl D⟩
  · rw [h]
    have hq := hnn v q hev hp
    exact ⟨le_min (by positivity) hD, min_le_right _ _⟩

lemma driver_bounds_aux (D : ℚ) (hD : 0 ≤ D) (evs : List Event) :
    ∀ s : DriverState,
      (∀ v q, (strS "out_time_ms", some v) ∈ evs → parsePyFloat v = some q → 0 ≤ q) →
      0 ≤ s.completed → s.completed ≤ D →
      0 ≤ (driverRun D s evs).completed ∧ (driverRun D s evs).completed ≤ D := by
  induction evs with
  | nil => intro s _ h0 h1; exact ⟨h0, h1⟩
  | cons e rest ih =>
    intro s hnn h0 h1
    have hstep := step_bounds D hD s e
      (fun v q hev hp => hnn v q (hev ▸ List.mem_cons_self _ _) hp) h0 h1
    exact ih (update_progress D s e)
      (fun v q hm hp => hnn v q (List.mem_cons_of_mem _ hm) hp) hstep.1 hstep.2

lemma positionsAfter_out_time (D : ℚ) (s : DriverState) (vs : List (PyStr × ℚ))
    (hp : ∀ p ∈ vs, parsePyFloat p.1 = some p.2) :
    positionsAfter D s (vs.map fun p => (strS "out_time_ms", some p.1)) =
      vs.map fun p => min (p.2 / 1000000) D := by
  induction vs generalizing s with
  | nil => rfl
  | cons p ps ih =>
    have h1 := hp p (List.mem_cons_self _ _)
    simp only [List.map_cons, positionsAfter, update_out_time_some D s p.1 p.2 h1]
    exact List.cons_eq_cons.mpr
      ⟨rfl, ih _ (fun q hq => hp q (List.mem_cons_of_mem _ hq))⟩

/-! ## Helper lemmas about `drainLines` and `handleChunks` -/

lemma drainLines_pos (buf : List Nat) (h : NL ∈ buf) :
    drainLines buf =
      (buf.takeWhile (· ≠ NL) :: (drainLines ((buf.dropWhile (· ≠ NL)).tail)).1,
       (drainLines ((buf.dropWhile (· ≠ NL)).tail)).2) := by
  rw [drainLines]
  simp [h]

lemma drainLines_neg (buf : List Nat) (h : NL ∉ buf) :
    drainLines buf = ([], buf) := by
  rw [drainLines]
  simp [h]

lemma drainLines_snd_no_nl (buf : List Nat) : NL ∉ (drainLines buf).2 := by
  induction buf using drainLines.induct with
  | case1 x hx hlt rest ih =>
    rw [drainLines_pos x hx]
    exact ih
  | case2 x hx =>
    rw [drainLines_neg x hx]
    exact hx

lemma takeWhile_append_of_exists {α : Type} (p : α → Bool) (a b : List α)
    (h : ∃ x ∈ a, p x = false) : (a ++ b).takeWhile p = a.takeWhile p := by
  induction a with
  | nil => obtain ⟨x, hx, -⟩ := h; cases hx
  | cons y t ih =>
    by_cases hy : p y
    · obtain ⟨x, hx, hpx⟩ := h
      rcases List.mem_cons.mp hx with rfl | hxt
      · rw [hy] at hpx; cases hpx
      · simp [List.takeWhile_cons, hy, ih ⟨x, hxt, hpx⟩]
    · simp [List.takeWhile_cons, hy]

lemma dropWhile_append_of_exists {α : Type} (p : α → Bool) (a b : List α)
    (h : ∃ x ∈ a, p x = false) : (a ++ b).dropWhile p = a.dropWhile p ++ b := by
  induction a with
  | nil => obtain ⟨x, hx, -⟩ := h; cases hx
  | cons y t ih =>
    by_cases hy : p y
    · obtain ⟨x, hx, hpx⟩ := h
      rcases List.mem_cons.mp hx with rfl | hxt
      · rw [hy] at hpx; cases hpx
      · simp [List.dropWhile_cons, hy, ih ⟨x, hxt, hpx⟩]
    · simp [List.dropWhile_cons, hy]

lemma dropWhile_nl_ne_nil (a : List Nat) (h : NL ∈ a) :
    a.dropWhile (· ≠ NL) ≠ [] := by
  intro hnil
  have := List.dropWhile_eq_nil_iff.mp hnil NL h
  simp at this

lemma tail_append_of_ne_nil {α : Type} (x b : List α) (h : x ≠ []) :
    (x ++ b).tail = x.tail ++ b := by
  cases x with
  | nil => exact absurd rfl h
  | cons y t => simp

lemma drainLines_append (a b : List Nat) :
    drainLines (a ++ b) =
      ((drainLines a).1 ++ (drainLines ((drainLines a).2 ++ b)).1,
       (drainLines ((drainLines a).2 ++ b)).2) := by
  induction a using drainLines.induct with
  | case1 x hx hlt rest ih =>
    have hmem : ∃ y ∈ x, (decide (y ≠ NL)) = false := ⟨NL, hx, by simp⟩
    have hxab : NL ∈ x ++ b := List.mem_append_left _ hx
    rw [drainLines_pos (x ++ b) hxab, drainLines_pos x hx,
        takeWhile_append_of_exists _ x b hmem,
        dropWhile_append_of_exists _ x b hmem,
        tail_append_of_ne_nil _ _ (dropWhile_nl_ne_nil x hx), ih]
    rw [List.cons_append]
  | case2 x hx =>
    rw [drainLines_neg x hx]
    simp

lemma handleChunks_flatten (chunks : List (List Nat)) :
    ∀ buf : List Nat, NL ∉ buf → [] ∉ chunks →
      handleChunks buf chunks =
        (drainLines (buf ++ chunks.flatten)).1.filterMap parseLine := by
  induction chunks with
  | nil =>
    intro buf hb _
    simp [handleChunks, drainLines_neg buf hb]
  | cons c cs ih =>
    intro buf hb hcs
    have hc : c ≠ [] := fun h => hcs (h ▸ List.mem_cons_self _ _)
    have hcs' : [] ∉ cs := fun h => hcs (List.mem_cons_of_mem _ h)
    simp only [handleChunks, hc, if_false]
    rw [ih _ (drainLines_snd_no_nl _) hcs',
        show buf ++ (c :: cs).flatten = (buf ++ c) ++ cs.flatten by simp,
        drainLines_append (buf ++ c) cs.flatten]
    simp [List.filterMap_append]

/-! ## The claims -/

/-- C6: processing a `('progress','end')` event always forces the Driver's
reported position to exactly the target duration, whatever the prior state
(including the initial position 0 when no updates ever arrived). -/
theorem c6_progress_end_forces_duration (D : ℚ) (s : DriverState) :
    (update_progress D s (strS "progress", some (strS "end"))).completed = D := by
  rw [update_end]

/-- C3, counterexample: the Driver has no DONE gating.  With target
duration 10, after `('start','connected')` and `('progress','end')` the
position is 10, but a subsequently received `('out_time_ms', '1000000')`
event moves the reported position to 1, not leaving it at the target
duration as the claim states. -/
theorem c3_counterexample :
    (driverRun 10 initState
      [(strS "start", some (strS "connected")),
       (strS "progress", some (strS "end")),
       (strS "out_time_ms", some (strS "1000000"))]).completed = 1 ∧
    (1 : ℚ) ≠ 10 := by
  constructor
  · rw [driverRun, List.foldl_cons, List.foldl_cons, List.foldl_cons, List.foldl_nil,
        update_start, update_end, update_out_time_some _ _ _ 1000000 (by decide)]
    norm_num
  · norm_num

/-- C3 amended: events received after a `('progress','end')` event are not
ignored — the Driver keeps processing them, and in particular a later
`('out_time_ms', v)` event with a parseable value sets the reported
position to `min(v/1e6, target_duration)`, which can move it back below
the target duration. -/
theorem c3_amended_no_done_gating (D : ℚ) (s : DriverState) (v : PyStr) (q : ℚ)
    (h : parsePyFloat v = some q) :
    (update_progress D (update_progress D s (strS "progress", some (strS "end")))
        (strS "out_time_ms", some v)).completed = min (q / 1000000) D := by
  rw [update_end, update_out_time_some _ _ _ _ h]

/-- Witness for `c3_amended_no_done_gating` at duration 10, value
`1000000`. -/
theorem c3_amended_witness :
    (update_progress 10 (update_progress 10 initState (strS "progress", some (strS "end")))
        (strS "out_time_ms", some (strS "1000000"))).completed = min ((1000000 : ℚ) / 1000000) 10 :=
  c3_amended_no_done_gating 10 initState (strS "1000000") 1000000 (by decide)

/-- C4, counterexample: the source clamps the position only from above
(`min(time_sec, duration)`, line 198), not from below.  With target
duration 10, the single event `('out_time_ms', '-5000000')` — a value that
parses to a negative number — drives the reported position to -5, outside
`[0, 10]`. -/
theorem c4_counterexample :
    ¬(0 ≤ (driverRun 10 initState [(strS "out_time_ms", some (strS "-5000000"))]).completed ∧
      (driverRun 10 initState [(strS "out_time_ms", some (strS "-5000000"))]).completed ≤ 10) := by
  rw [driverRun, List.foldl_cons, List.foldl_nil,
      update_out_time_some _ _ _ (-5000000) (by decide)]
  rw [show ((-5000000 : ℚ) / 1000000) = -5 by norm_num,
      min_eq_left (by norm_num : (-5 : ℚ) ≤ 10)]
  norm_num

/-- C4 amended: the position is clamped to the target duration from above
but not clamped to 0 from below — a value parsing to a negative number
sets a negative position (see the counterexample).  It stays within
`[0, D]` for every event sequence in which each `out_time_ms` value is
ASCII text, is not an infinity/NaN literal (`float()` accepts those, with
non-finite values outside the rational model), and whose parse, when it
succeeds, is non-negative.  On that domain the modelled parse agrees with
`float()`, so the hypotheses say exactly: all parseable values are
non-negative finite numbers. -/
theorem c4_amended_bounds (D : ℚ) (hD : 0 ≤ D) (evs : List Event)
    (_hascii : ∀ v, (strS "out_time_ms", some v) ∈ evs → ∀ c ∈ v, c.toNat < 128)
    (_hfin : ∀ v, (strS "out_time_ms", some v) ∈ evs → isPyNonFinite v = false)
    (hnn : ∀ v q, (strS "out_time_ms", some v) ∈ evs → parsePyFloat v = some q → 0 ≤ q) :
    0 ≤ (driverRun D initState evs).completed ∧
      (driverRun D initState evs).completed ≤ D :=
  driver_bounds_aux D hD evs initState hnn (le_refl 0) hD

/-- C5: a parseable `('out_time_ms', v)` event sets the position
absolutely to `min(v/1e6, D)`; for a strictly increasing sequence of
values all at most `D*1e6`, the reported position after each event is
exactly `min(vi/1e6, D) = vi/1e6`, never decreases and never exceeds
`D`. -/
theorem c5_absolute_position_updates (D : ℚ) (s : DriverState)
    (vs : List (PyStr × ℚ))
    (hp : ∀ p ∈ vs, parsePyFloat p.1 = some p.2)
    (hb : ∀ p ∈ vs, p.2 ≤ D * 1000000)
    (hmono : List.Chain' (· < ·) (vs.map Prod.snd)) :
    positionsAfter D s (vs.map fun p => (strS "out_time_ms", some p.1)) =
      vs.map (fun p => min (p.2 / 1000000) D) ∧
    positionsAfter D s (vs.map fun p => (strS "out_time_ms", some p.1)) =
      vs.map (fun p => p.2 / 1000000) ∧
    List.Chain' (· ≤ ·)
      (positionsAfter D s (vs.map fun p => (strS "out_time_ms", some p.1))) ∧
    ∀ x ∈ positionsAfter D s (vs.map fun p => (strS "out_time_ms", some p.1)),
      x ≤ D := by
  have h1 := positionsAfter_out_time D s vs hp
  have hminmap : vs.map (fun p => min (p.2 / 1000000) D) =
      vs.map (fun p => p.2 / 1000000) := by
    apply List.map_congr_left
    intro p hpmem
    exact min_eq_left
      ((div_le_iff₀ (by norm_num : (0 : ℚ) < 1000000)).mpr (hb p hpmem))
  refine ⟨h1, h1.trans hminmap, ?_, ?_⟩
  · rw [h1, hminmap, List.chain'_map]
    rw [List.chain'_map] at hmono
    exact hmono.imp fun a b hab =>
      (div_le_div_iff_of_pos_right (by norm_num : (0 : ℚ) < 1000000)).mpr hab.le
  · rw [h1]
    intro x hx
    simp only [List.mem_map] at hx
    obtain ⟨p, -, rfl⟩ := hx
    exact min_le_right _ _

/-- Witness for `c5_absolute_position_updates`: duration 10, values
1000000 then 2000000 microseconds, positions 1 then 2 seconds. -/
theorem c5_witness :
    positionsAfter 10 initState
      ([(strS "1000000", (1000000 : ℚ)), (strS "2000000", 2000000)].map
        fun p => (strS "out_time_ms", some p.1)) = [1, 2] := by
  rw [(c5_absolute_position_updates 10 initState
        [(strS "1000000", (1000000 : ℚ)), (strS "2000000", 2000000)]
        (by decide) (by norm_num) (by norm_num)).2.1]
  norm_num

/-- Witness for `c4_amended_bounds`: duration 10 with one non-negative
ASCII update. -/
theorem c4_amended_witness :
    0 ≤ (driverRun 10 initState [(strS "out_time_ms", some (strS "3000000"))]).completed ∧
      (driverRun 10 initState [(strS "out_time_ms", some (strS "3000000"))]).completed ≤ 10 := by
  refine c4_amended_bounds 10 (by norm_num) _ ?_ ?_ ?_
  · intro v hm
    simp only [List.mem_singleton, Prod.mk.injEq, Option.some.injEq] at hm
    rw [hm.2]
    decide
  · intro v hm
    simp only [List.mem_singleton, Prod.mk.injEq, Option.some.injEq] at hm
    rw [hm.2]
    decide
  · intro v q hm hp
    simp only [List.mem_singleton, Prod.mk.injEq, Option.some.injEq] at hm
    rw [hm.2] at hp
    have hparse : parsePyFloat (strS "3000000") = some 3000000 := by decide
    rw [hparse] at hp
    cases hp
    norm_num

end Animutools

namespace Animutools

/-- C7: the byte stream is turned into handler events independently of how
it is chunked into reads — the events are exactly the parses of the
complete newline-terminated lines of the concatenated stream, in wire
order, one handler invocation per line at most.  Per line: a line whose
stripped decoded text is blank produces no invocation; an invocation's key
is the first-`'='`-split component stripped of whitespace and is
non-empty, and its value is the remainder stripped, or absent for a bare
`key` line without `'='`. -/
theorem c7_chunking_independent_line_parse (chunks : List (List Nat))
    (hne : [] ∉ chunks) :
    handleClientEvents chunks =
      (strS "start", some (strS "connected")) ::
        (drainLines chunks.flatten).1.filterMap parseLine ∧
    (∀ bs, stripChars (decodeBytes bs) = [] → parseLine bs = none) ∧
    (∀ bs k v, parseLine bs = some (k, v) →
        k ≠ [] ∧ k = stripChars (splitOnceEq (stripChars (decodeBytes bs))).1 ∧
        v = ((splitOnceEq (stripChars (decodeBytes bs))).2).map stripChars) ∧
    (∀ bs k v, parseLine bs = some (k, v) →
        '=' ∉ stripChars (decodeBytes bs) → v = none) := by
  refine ⟨?_, ?_, ?_, ?_⟩
  · unfold handleClientEvents
    rw [handleChunks_flatten chunks [] (by simp) hne]
    simp
  · intro bs h
    simp [parseLine, h]
  · intro bs k v h
    unfold parseLine at h
    by_cases h1 : stripChars (decodeBytes bs) = []
    · simp [h1] at h
    · by_cases h2 : stripChars (splitOnceEq (stripChars (decodeBytes bs))).1 = []
      · simp [h1, h2] at h
      · simp [h1, h2, Prod.mk.injEq] at h
        obtain ⟨hk, hv⟩ := h
        exact ⟨hk ▸ h2, hk.symm, hv.symm⟩
  · intro bs k v h hnm
    unfold parseLine at h
    by_cases h1 : stripChars (decodeBytes bs) = []
    · simp [h1] at h
    · have hsplit : (splitOnceEq (stripChars (decodeBytes bs))).2 = none := by
        simp [splitOnceEq, hnm]
      by_cases h2 : stripChars (splitOnceEq (stripChars (decodeBytes bs))).1 = []
      · simp [h1, h2] at h
      · simp [h1, h2, hsplit, Prod.mk.injEq] at h
        exact h.2.symm

end Animutools

namespace Animutools

/-- Witness for `c7_chunking_independent_line_parse`: a stream whose
second line is split across two reads. -/
theorem c7_witness :
    handleClientEvents
        [asciiBytes "out_time_ms=5000000\npro", asciiBytes "gress=end\n"] =
      (strS "start", some (strS "connected")) ::
        (drainLines
          ([asciiBytes "out_time_ms=5000000\npro",
            asciiBytes "gress=end\n"].flatten)).1.filterMap parseLine :=
  (c7_chunking_independent_line_parse
    [asciiBytes "out_time_ms=5000000\npro", asciiBytes "gress=end\n"]
    (by decide)).1

/-- C2, counterexample: a stream that ends (EOF) while the non-empty
partial line `progress=end` (no trailing newline) is buffered delivers
only the synthetic start event — the buffered partial line is discarded,
not parsed as a final event. -/
theorem c2_counterexample :
    handleClientEvents [asciiBytes "progress=end"] =
      [(strS "start", some (strS "connected"))] := by
  have h : NL ∉ asciiBytes "progress=end" := by decide
  unfold handleClientEvents
  simp only [handleChunks, if_neg (by decide : ¬(asciiBytes "progress=end" = ([] : List Nat))),
             List.nil_append, drainLines_neg _ h]
  simp [handleChunks]

/-- C2 amended: a non-empty partial line without a trailing newline that
is still buffered at EOF is discarded, not delivered: appending it to the
stream leaves the delivered event sequence unchanged. -/
theorem c2_amended_trailing_line_discarded (chunks : List (List Nat))
    (p : List Nat) (hne : [] ∉ chunks) (hp : NL ∉ p) (hpne : p ≠ []) :
    handleClientEvents (chunks ++ [p]) = handleClientEvents chunks := by
  have hne2 : [] ∉ chunks ++ [p] := by
    intro hmem
    rcases List.mem_append.mp hmem with h | h
    · exact hne h
    · exact hpne (List.mem_singleton.mp h).symm
  unfold handleClientEvents
  rw [handleChunks_flatten chunks [] (by simp) hne,
      handleChunks_flatten (chunks ++ [p]) [] (by simp) hne2]
  simp only [List.nil_append]
  rw [show (chunks ++ [p]).flatten = chunks.flatten ++ p by simp,
      drainLines_append chunks.flatten p]
  have hre : NL ∉ (drainLines chunks.flatten).2 ++ p := by
    intro hmem
    rcases List.mem_append.mp hmem with h | h
    · exact drainLines_snd_no_nl _ h
    · exact hp h
  rw [drainLines_neg _ hre]
  simp

/-- Witness for `c2_amended_trailing_line_discarded`: one complete line
followed at EOF by the buffered partial line `b=2`. -/
theorem c2_amended_witness :
    handleClientEvents [asciiBytes "a=1\n", asciiBytes "b=2"] =
      handleClientEvents [asciiBytes "a=1\n"] := by
  have h := c2_amended_trailing_line_discarded [asciiBytes "a=1\n"]
    (asciiBytes "b=2") (by decide) (by decide) (by decide)
  simpa using h

end Animutools

namespace Animutools

/-- C8: malformed protocol input is tolerated and never escalated.
An `out_time_ms` event whose ASCII, non-inf/nan value `float()` cannot
parse (modelled: `parsePyFloat` returns `none`) — or whose value is
absent — leaves the Driver state unchanged; any event whose key is not
one of the recognized patterns leaves the Driver state unchanged; a
stream interleaving the malformed lines `not_valid_data` and
`also=missing=equals` between two valid `out_time_ms` lines still
delivers the valid lines' events, and the Driver ends at position 2 as
the valid lines dictate; an undecodable byte (a bare UTF-8 continuation
byte) inside a value is dropped without losing the line, and a line of
pure undecodable bytes decodes to blank and produces no event, the
following valid line being processed normally. -/
theorem c8_malformed_input_tolerated :
    (∀ (D : ℚ) (s : DriverState) (v : PyStr),
        (∀ c ∈ v, c.toNat < 128) → isPyNonFinite v = false →
        parsePyFloat v = none →
        update_progress D s (strS "out_time_ms", some v) = s) ∧
    (∀ (D : ℚ) (s : DriverState),
        update_progress D s (strS "out_time_ms", none) = s) ∧
    (∀ (D : ℚ) (s : DriverState) (ev : Event),
        ¬(ev.1 = strS "start" ∧ ev.2 = some (strS "connected")) →
        ev.1 ≠ strS "out_time_ms" →
        ¬(ev.1 = strS "progress" ∧ ev.2 = some (strS "end")) →
        update_progress D s ev = s) ∧
    handleClientEvents
        [asciiBytes
          "out_time_ms=1000000\nnot_valid_data\nalso=missing=equals\nout_time_ms=2000000\n"] =
      [(strS "start", some (strS "connected")),
       (strS "out_time_ms", some (strS "1000000")),
       (strS "not_valid_data", none),
       (strS "also", some (strS "missing=equals")),
       (strS "out_time_ms", some (strS "2000000"))] ∧
    (driverRun 10 initState
        (handleClientEvents
          [asciiBytes
            "out_time_ms=1000000\nnot_valid_data\nalso=missing=equals\nout_time_ms=2000000\n"])).completed
      = 2 ∧
    handleClientEvents
        [asciiBytes "out_time_ms=1" ++ [128] ++ asciiBytes "000000\n" ++
          [255, 128, NL] ++ asciiBytes "progress=continue\n"] =
      [(strS "start", some (strS "connected")),
       (strS "out_time_ms", some (strS "1000000")),
       (strS "progress", some (strS "continue"))] := by
  have hstream :
      handleClientEvents
        [asciiBytes
          "out_time_ms=1000000\nnot_valid_data\nalso=missing=equals\nout_time_ms=2000000\n"] =
      [(strS "start", some (strS "connected")),
       (strS "out_time_ms", some (strS "1000000")),
       (strS "not_valid_data", none),
       (strS "also", some (strS "missing=equals")),
       (strS "out_time_ms", some (strS "2000000"))] := by
    simp only [handleClientEvents, handleChunks]
    rw [if_neg (by decide), List.nil_append]
    rw [show drainLines
          (asciiBytes
            "out_time_ms=1000000\nnot_valid_data\nalso=missing=equals\nout_time_ms=2000000\n")
        = ([asciiBytes "out_time_ms=1000000", asciiBytes "not_valid_data",
            asciiBytes "also=missing=equals", asciiBytes "out_time_ms=2000000"], [])
      from by simp [drainLines, asciiBytes, NL]]
    simp only [handleChunks]
    decide
  refine ⟨?_, ?_, ?_, hstream, ?_, ?_⟩
  · exact fun D s v _ _ h => update_out_time_noparse D s v h
  · exact fun D s => update_out_time_none D s
  · exact fun D s ev h1 h2 h3 => update_other D s ev h1 h2 h3
  · rw [hstream, driverRun]
    simp only [List.foldl_cons, List.foldl_nil]
    rw [update_start,
        update_out_time_some 10 _ (strS "1000000") 1000000 (by decide),
        update_other 10 _ (strS "not_valid_data", none)
          (by decide) (by decide) (by decide),
        update_other 10 _ (strS "also", some (strS "missing=equals"))
          (by decide) (by decide) (by decide),
        update_out_time_some 10 _ (strS "2000000") 2000000 (by decide)]
    norm_num
  · simp only [handleClientEvents, handleChunks]
    rw [if_neg (by decide), List.nil_append]
    rw [show drainLines
          (asciiBytes "out_time_ms=1" ++ [128] ++ asciiBytes "000000\n" ++
            [255, 128, NL] ++ asciiBytes "progress=continue\n")
        = ([asciiBytes "out_time_ms=1" ++ [128] ++ asciiBytes "000000",
            [255, 128], asciiBytes "progress=continue"], [])
      from by simp [drainLines, asciiBytes, NL]]
    simp only [handleChunks]
    decide

/-- Witness for `c8_malformed_input_tolerated`: the unparseable ASCII
value `xyz` leaves the initial state unchanged. -/
theorem c8_witness :
    update_progress 10 initState (strS "out_time_ms", some (strS "xyz")) = initState :=
  c8_malformed_input_tolerated.1 10 initState (strS "xyz")
    (by decide) (by decide) (by decide)

/-- C9: the accept loop services at most one connection at a time — an
arrival while the previous client thread is still alive is rejected: the
warning is logged, the socket is closed with zero `recv` calls, and it is
never handed to `_handle_client`; an arrival while no handler is alive is
serviced, and its event stream is a function of its own chunks alone,
unaffected by the other arrivals. -/
theorem c9_single_connection_policy (arrivals : List Arrival) (i : Nat)
    (hi : i < arrivals.length) :
    ((arrivals.get ⟨i, hi⟩).prevHandlerAlive = true →
      (acceptLoop arrivals).get ⟨i, by simpa [acceptLoop] using hi⟩ =
        ConnOutcome.rejectedBusy true 0) ∧
    ((arrivals.get ⟨i, hi⟩).prevHandlerAlive = false →
      (acceptLoop arrivals).get ⟨i, by simpa [acceptLoop] using hi⟩ =
        ConnOutcome.serviced (handleClientEvents (arrivals.get ⟨i, hi⟩).chunks)) := by
  constructor <;> intro h <;>
    simp [acceptLoop, List.get_eq_getElem, List.getElem_map, acceptConnection, h] <;>
    simpa [List.get_eq_getElem] using h

/-- Witness for `c9_single_connection_policy`: a connection arriving while
the previous handler is alive is rejected with a warning and zero reads. -/
theorem c9_witness :
    (acceptLoop [⟨true, []⟩]).get ⟨0, by simp [acceptLoop]⟩ =
      ConnOutcome.rejectedBusy true 0 :=
  (c9_single_connection_policy [⟨true, []⟩] 0 (by decide)).1 (by decide)

/-- C1, behavior of the code at the failing input (duration 10, encoder
exit code 1, plain rerun succeeding): `run_ffmpeg_with_progress` launches
the encoder twice — the `RuntimeError` raised for the nonzero exit code is
swallowed by the outer `except Exception` handler, which reruns the encode
without progress — and the call returns success; the exit code 1 is never
reported to the caller. -/
theorem c1_code_behavior_on_nonzero_exit :
    (run_ffmpeg_with_progress 10 ⟨1, false, false⟩ 10).launches = 2 ∧
    (run_ffmpeg_with_progress 10 ⟨1, false, false⟩ 10).outcome = RunOutcome.success ∧
    (run_ffmpeg_with_progress 10 ⟨1, false, false⟩ 10).outcome ≠
      RunOutcome.failedWithCode 1 := by
  have houtcome : (run_ffmpeg_with_progress 10 ⟨1, false, false⟩ 10).outcome =
      RunOutcome.success := by
    norm_num [run_ffmpeg_with_progress]
  exact ⟨by norm_num [run_ffmpeg_with_progress], houtcome,
    by rw [houtcome]; decide⟩

/-- C10: for a known positive duration, the `animutools` logger level
observed after `run_ffmpeg_with_progress` returns equals the level before
the call, on every exit path — success, subprocess failure (with or
without a failing fallback rerun), and user interrupt — because the
`finally` block always restores the saved level. -/
theorem c10_logger_level_restored (duration : ℚ) (env : ExecEnv) (level : Nat)
    (hpos : 0 < duration) :
    (run_ffmpeg_with_progress duration env level).finalLevel = level := by
  unfold run_ffmpeg_with_progress
  rw [if_neg (not_le.mpr hpos)]

/-- Witness for `c10_logger_level_restored`: duration 10, a successful
encode, entry level 10 (`logging.DEBUG`). -/
theorem c10_witness :
    (run_ffmpeg_with_progress 10 ⟨0, false, false⟩ 10).finalLevel = 10 :=
  c10_logger_level_restored 10 ⟨0, false, false⟩ 10 (by norm_num)

end Animutools
